import Mathlib

/-!
# Notebook chunk cache (session/modules/rmarkdown/NotebookCache.cpp)

A shallow embedding of the cache lifecycle code: the folder identity
(`chunkCacheFolder`), the three document event handlers (`onDocRemoved`,
`onDocRenamed`, `onDocAdded`), the on-demand entry point
(`rs_populateNotebookCache`) and the periodic sweeper (`cleanUnusedCaches`).

Stateful code is a function on an explicit `World` (file tree, the list of
mutating file-system calls issued so far, and the error log).  `return;` and
`continue;` are the early exit `leave` of the `Proc` monad, so a statement
that follows one of them in the source can be written down here as well.
-/

namespace NotebookCache

/-! ## Values -/

/-- The `core::Error` value: either `Success()` or an error with a code. -/
inductive Error
| success
| failure (code : Nat)
deriving DecidableEq, Repr

/-- The boolean conversion of `core::Error`, as used in `if (error)`. -/
def Error.isError : Error → Bool
| Error.success => false
| Error.failure _ => true

/-- Modelled from the spec: the class core::FilePath is not among the sources;
a path is the list of its components below the file-system root. -/
structure FilePath where
  comps : List String
deriving DecidableEq, Repr

/-- The name without its final extension: the text before the last dot, the
names "." and ".." being kept whole (character level of `FilePath::stem`). -/
def dropExtension (name : List Char) : List Char :=
  if name = ['.'] ∨ name = ['.', '.'] then name
  else if '.' ∈ name then ((name.reverse.dropWhile (fun c => c != '.')).drop 1).reverse
  else name

/-- The final extension, dot included: the text from the last dot on
(character level of `FilePath::extension`). -/
def takeExtension (name : List Char) : List Char :=
  if name = ['.'] ∨ name = ['.', '.'] then []
  else if '.' ∈ name then '.' :: (name.reverse.takeWhile (fun c => c != '.')).reverse
  else []

/-- Modelled from the spec: `FilePath::childPath`, one more component. -/
def FilePath.childPath (p : FilePath) (name : String) : FilePath :=
  ⟨p.comps ++ [name]⟩

/-- Modelled from the spec: `FilePath::complete` with a relative name. -/
def FilePath.complete (p : FilePath) (name : String) : FilePath :=
  ⟨p.comps ++ [name]⟩

/-- Modelled from the spec: `FilePath::parent`. -/
def FilePath.parent (p : FilePath) : FilePath :=
  ⟨p.comps.dropLast⟩

/-- Modelled from the spec: `FilePath::filename`, the last component. -/
def FilePath.filename (p : FilePath) : String :=
  p.comps.getLast?.getD ""

/-- Modelled from the spec: `FilePath::stem`, the file name without its final
extension. -/
def FilePath.stem (p : FilePath) : String :=
  String.mk (dropExtension p.filename.data)

/-- Modelled from the spec: `FilePath::extensionLowerCase`. -/
def FilePath.extensionLowerCase (p : FilePath) : String :=
  String.mk ((takeExtension p.filename.data).map Char.toLower)

/-- Modelled from the spec: `FilePath::absolutePath`, the components joined
below the root. -/
def FilePath.absolutePath (p : FilePath) : String :=
  "/" ++ "/".intercalate p.comps

/-- The cache format version, `#define kCacheVersion "1"`. -/
def kCacheVersion : String := "1"

/-- The age threshold, `#define kCacheAgeThresholdMs 1000 * 60 * 60 * 24 * 2`. -/
def kCacheAgeThresholdMs : Int := 1000 * 60 * 60 * 24 * 2

/-! ## The file tree -/

/-- One node of the file tree: where it is, whether it is a directory, its
bytes (for a file) and its last write time. -/
structure Entry where
  path : FilePath
  isDir : Bool
  bytes : String
  mtime : Int
deriving DecidableEq, Repr

/-- Modelled from the spec: the file system behind core::FilePath is not among
the sources; it is the finite table of its nodes. -/
abbrev FS := List Entry

/-- Whether the entry lies at or below the path. -/
def Entry.under (p : FilePath) (e : Entry) : Bool :=
  p.comps.isPrefixOf e.path.comps

/-- The entry moved from below `src` to the same place below `dst`. -/
def Entry.rebase (src dst : FilePath) (e : Entry) : Entry :=
  { e with path := ⟨dst.comps ++ e.path.comps.drop src.comps.length⟩ }

/-- Modelled from the spec: `FilePath::exists`; a path exists when the table
holds a node at or below it. -/
def FS.exists (fs : FS) (p : FilePath) : Bool :=
  fs.any (Entry.under p)

/-- Whether the table holds a regular file at the path or at one of its
ancestors. -/
def FS.blockedByFile (fs : FS) (p : FilePath) : Bool :=
  fs.any (fun e => e.path.comps.isPrefixOf p.comps && !e.isDir)

/-- Modelled from the spec: `FilePath::isDirectory`; a directory is a path that
exists with no regular file at it or above it. -/
def FS.isDirectory (fs : FS) (p : FilePath) : Bool :=
  fs.exists p && !fs.blockedByFile p

/-- Modelled from the spec: `FilePath::lastWriteTime`, 0 when there is no node
at the path. -/
def FS.lastWriteTime (fs : FS) (p : FilePath) : Int :=
  ((fs.find? (fun e => decide (e.path = p))).map Entry.mtime).getD 0

/-- The names directly below a directory, each once. -/
def FS.childNames (fs : FS) (p : FilePath) : List String :=
  (fs.filterMap (fun e =>
    if Entry.under p e then (e.path.comps.drop p.comps.length).head? else none)).dedup

/-- Modelled from the spec: `FilePath::children`; it fails on what is not a
directory and otherwise lists the paths directly below. -/
def FS.children (fs : FS) (p : FilePath) : Error × List FilePath :=
  if fs.isDirectory p then (Error.success, (fs.childNames p).map p.childPath)
  else (Error.failure 2, [])

/-- The content of a folder: relative name, kind and bytes of every node at or
below it (write times are not content). -/
def FS.content (fs : FS) (p : FilePath) : List (List String × Bool × String) :=
  (fs.filter (Entry.under p)).map
    (fun e => (e.path.comps.drop p.comps.length, e.isDir, e.bytes))

/-- The nodes at or below a path, write times included. -/
def FS.subtree (fs : FS) (p : FilePath) : List Entry :=
  fs.filter (Entry.under p)

/-- The table without the nodes at or below a path. -/
def FS.erase (fs : FS) (p : FilePath) : FS :=
  fs.filter (fun e => !Entry.under p e)

/-- The nodes at or below a path together with the nodes at or above it: all
that `exists` and `isDirectory` look at for this path. -/
def FS.around (fs : FS) (q : FilePath) : List Entry :=
  fs.filter (fun e => Entry.under q e || e.path.comps.isPrefixOf q.comps)

/-! ## Collaborators that are not part of this file -/

/-- The document passed to the rename handler (`source_database::SourceDocument`):
only its id and path are read. -/
structure SourceDocument where
  id : String
  path : String
deriving DecidableEq, Repr

/-- The collaborators of the cache code that live outside NotebookCache.cpp,
taken as parameters: scratch directories, the context id, path aliasing, the
path-id registry, the source database, the chunk-definitions reader, the .Rnb
parser, the clock, and which file-system mutations fail. -/
structure Host where
  /-- The value of `module_context::sharedScratchPath()`. -/
  sharedScratchPath : FilePath
  /-- The value of `module_context::sessionScratchPath()`. -/
  sessionScratchPath : FilePath
  /-- The value of `notebookCtxId()`. -/
  notebookCtxId : String
  /-- The value of `userSettings().contextId()`. -/
  contextId : String
  /-- The function `module_context::resolveAliasedPath`. -/
  resolveAliasedPath : String → FilePath
  /-- The function `module_context::createAliasedPath(FileInfo(path))`. -/
  createAliasedPath : FilePath → String
  /-- The function `notebookPathToId(path, nbCtxId, &id)`: the error and the id stored. -/
  notebookPathToId : FilePath → String → Error × String
  /-- The function `notebookIdToPath(id, nbCtxId, &path)`: the error and the path stored. -/
  notebookIdToPath : String → String → Error × FilePath
  /-- The function `source_database::getId(path, &id)`: the id stored, empty when
  no open document has the path. -/
  getId : String → String
  /-- The function `source_database::getPath(id, &path)`: the error and the path stored. -/
  getPath : String → Error × String
  /-- The function `getChunkDefs(docPath, docId, &writeTime, NULL)`: the error
  and the write time stored. -/
  getChunkDefs : FS → String → String → Error × Int
  /-- The constant `kNotebookChunkDefFilename`. -/
  kNotebookChunkDefFilename : String
  /-- The function `parseRnb(rnbFile, cacheFolder)`: the error, and the nodes it
  writes, named relative to the cache folder. -/
  parseRnb : FS → FilePath → FilePath → Error × List Entry
  /-- The value of `std::time(NULL)`. -/
  now : Int
  /-- The error `FilePath::move` meets, if any. -/
  moveError : FilePath → FilePath → Error
  /-- The error `FilePath::copyDirectoryRecursive` meets, if any, and how many
  nodes it has copied by then. -/
  copyError : FilePath → FilePath → Error × Nat
  /-- The error `FilePath::remove` meets, if any. -/
  removeError : FilePath → Error

/-! ## State and control -/

/-- A mutating call on the file system, as issued by the cache code. -/
inductive FsCall
| move (src dst : FilePath)
| copyDirectoryRecursive (src dst : FilePath)
| remove (p : FilePath)
| removeIfExists (p : FilePath)
| parseRnb (rnbFile cacheFolder : FilePath)
deriving DecidableEq, Repr

/-- What the code acts on: the file tree, the mutating calls issued so far
(oldest first) and the errors passed to `LOG_ERROR` (oldest first). -/
structure World where
  fs : FS
  calls : List FsCall
  errorLog : List Error
deriving DecidableEq, Repr

/-- A statement sequence: it runs on a world and either completes with a value
or leaves the enclosing body early (`return;`, `continue;`). -/
def Proc (α : Type) : Type := World → Option α × World

/-- A completed step. -/
def Proc.pure {α : Type} (a : α) : Proc α := fun w => (some a, w)

/-- Sequencing: what follows an early exit is not run. -/
def Proc.bind {α β : Type} (m : Proc α) (f : α → Proc β) : Proc β := fun w =>
  match m w with
  | (some a, w1) => f a w1
  | (none, w1) => (none, w1)

instance : Monad Proc where
  pure := Proc.pure
  bind := Proc.bind

/-- The early exit: `return;` in a handler, `continue;` in a loop body. -/
def leave {α : Type} : Proc α := fun w => (none, w)

/-- The world a body ends in, however it ended. -/
def Proc.exec {α : Type} (m : Proc α) (w : World) : World := (m w).2

/-- The statement `BOOST_FOREACH(x, xs) body`: the body runs for each element
in turn, a `continue;` ending only the current round. -/
def forEach {α : Type} (xs : List α) (body : α → Proc Unit) : Proc Unit := fun w =>
  (some (), xs.foldl (fun w1 x => (body x).exec w1) w)

/-- The statement `LOG_ERROR(error)`. -/
def logError (error : Error) : Proc Unit := fun w =>
  (some (), { w with errorLog := w.errorLog ++ [error] })

/-- The current file tree. -/
def getFS : Proc FS := fun w => (some w.fs, w)

/-! ## File-system mutations -/

/-- Modelled from the spec: `FilePath::remove`, recursive; a failing removal
leaves the tree as it was. -/
def fsRemove (h : Host) (p : FilePath) : Proc Error := fun w =>
  let error := h.removeError p
  (some error,
   { w with fs := if error.isError then w.fs else w.fs.erase p,
            calls := w.calls ++ [FsCall.remove p] })

/-- Modelled from the spec: `FilePath::removeIfExists`. -/
def fsRemoveIfExists (h : Host) (p : FilePath) : Proc Error := fun w =>
  let error := if w.fs.exists p then h.removeError p else Error.success
  (some error,
   { w with fs := if error.isError then w.fs else w.fs.erase p,
            calls := w.calls ++ [FsCall.removeIfExists p] })

/-- The error a move ends with: the one the host meets, or the one for a
destination that is the source or lies inside it. -/
def moveOutcome (h : Host) (src dst : FilePath) : Error :=
  if (h.moveError src dst).isError then h.moveError src dst
  else if src.comps.isPrefixOf dst.comps then Error.failure 22
  else Error.success

/-- Modelled from the spec: `FilePath::move`, a rename of the whole subtree; a
failing move leaves the tree as it was. -/
def fsMove (h : Host) (src dst : FilePath) : Proc Error := fun w =>
  let error := moveOutcome h src dst
  (some error,
   { w with fs := if error.isError then w.fs
                  else w.fs.map (fun e => if Entry.under src e then e.rebase src dst else e),
            calls := w.calls ++ [FsCall.move src dst] })

/-- The copies a recursive copy writes: every node at or below the source, at
the same place below the destination, stamped with the current time. -/
def copiesOf (h : Host) (fs : FS) (src dst : FilePath) : List Entry :=
  (fs.filter (Entry.under src)).map (fun e => { e.rebase src dst with mtime := h.now })

/-- Modelled from the spec: `FilePath::copyDirectoryRecursive`; a failing copy
leaves behind the nodes copied so far. -/
def fsCopyDirectoryRecursive (h : Host) (src dst : FilePath) : Proc Error := fun w =>
  let outcome := h.copyError src dst
  (some outcome.1,
   { w with fs := if outcome.1.isError then w.fs ++ (copiesOf h w.fs src dst).take outcome.2
                  else w.fs ++ copiesOf h w.fs src dst,
            calls := w.calls ++ [FsCall.copyDirectoryRecursive src dst] })

/-- Modelled from the spec: `parseRnb(rnbFile, cacheFolder)`, of which only the
declaration (SessionRnbParser.hpp) is among the sources: a black box from
bundle and target folder to success or error, which writes below the target
folder only. -/
def parseRnb (h : Host) (rnbFile cacheFolder : FilePath) : Proc Error := fun w =>
  let outcome := h.parseRnb w.fs rnbFile cacheFolder
  (some outcome.1,
   { w with fs := w.fs ++ outcome.2.map
                    (fun e => { e with path := ⟨cacheFolder.comps ++ e.path.comps⟩ }),
            calls := w.calls ++ [FsCall.parseRnb rnbFile cacheFolder] })

/-! ## NotebookCache.cpp -/

/-- The function `unsavedNotebookCache()`. -/
def unsavedNotebookCache (h : Host) : FilePath :=
  h.sessionScratchPath.childPath "unsaved-notebooks"

/-- The function `notebookCacheRoot()`. -/
def notebookCacheRoot (h : Host) : FilePath :=
  h.sharedScratchPath.childPath "notebooks"

/-- The function `chunkCacheFolder(docPath, docId, nbCtxId)`. -/
def chunkCacheFolder (h : Host) (docPath docId nbCtxId : String) : Proc FilePath := do
  let folder ←
    if docPath = "" then
      -- the doc hasn't been saved, so keep its chunk output in the scratch path
      pure ((unsavedNotebookCache h).childPath docId)
    else do
      -- the doc has been saved, so keep its chunk output alongside the doc
      let path := h.resolveAliasedPath docPath
      let (error, id) := h.notebookPathToId path nbCtxId
      if error.isError then
        logError error
      pure ((notebookCacheRoot h).childPath (nbCtxId ++ "-" ++ id ++ "-" ++ path.stem))
  return folder.childPath kCacheVersion

/-- The overload `chunkCacheFolder(docPath, docId)`, in the notebook context. -/
def chunkCacheFolderDefault (h : Host) (docPath docId : String) : Proc FilePath :=
  chunkCacheFolder h docPath docId h.notebookCtxId

/-- Modelled from the spec: `chunkDefinitionsPath` (NotebookChunkDefs.cpp is not
among the sources); the marker is a file inside the version subdirectory. -/
def chunkDefinitionsPath (h : Host) (docPath docId nbCtxId : String) : Proc FilePath := do
  let folder ← chunkCacheFolder h docPath docId nbCtxId
  return folder.complete h.kNotebookChunkDefFilename

/-- The first occurrence of the delimiter: the text before it and the text
after it. -/
def breakAt (delim : List Char) : List Char → Option (List Char × List Char)
| [] => if delim = [] then some ([], []) else none
| c :: cs =>
  if delim.isPrefixOf (c :: cs) then some ([], (c :: cs).drop delim.length)
  else (breakAt delim cs).map (fun r => (c :: r.1, r.2))

/-- The fields between the first `n` occurrences of the delimiter, then the
remainder as the last field. -/
def splitFields (delim : List Char) : Nat → List Char → List (List Char)
| 0, s => [s]
| n + 1, s =>
  match breakAt delim s with
  | none => [s]
  | some (field, rest) => field :: splitFields delim n rest

/-- Modelled from the spec: `core::algorithm::split(string, delim)`
(core/Algorithm.hpp is not among the sources); called with the string and the
delimiter only, it splits at every occurrence of the delimiter (a string of
n characters holds at most n occurrences of a non-empty delimiter). -/
def split (s delim : String) : List String :=
  (splitFields delim.data s.data.length s.data).map String.mk

/-- The handler `onDocRemoved(docId, docPath)`. -/
def onDocRemoved (h : Host) (docId docPath : String) : Proc Unit := do
  let cacheFolder ← chunkCacheFolderDefault h docPath docId
  let defFile ← chunkDefinitionsPath h docPath docId h.notebookCtxId
  let fs ← getFS
  if docPath ≠ "" && fs.exists defFile then
    -- for saved documents, we want to keep the cache folder around even when
    -- the document is closed, but only if the chunk definitions are in sync
    let docFile := h.resolveAliasedPath docPath
    let (_, writeTime) := h.getChunkDefs fs docPath docId
    if writeTime ≤ fs.lastWriteTime docFile then
      -- the doc has been saved since the last time the chunk defs were updated
      leave
  let error ← fsRemoveIfExists h cacheFolder
  if error.isError then
    logError error

/-- The handler `onDocRenamed(oldPath, pDoc)`. -/
def onDocRenamed (h : Host) (oldPath : String) (pDoc : SourceDocument) : Proc Unit := do
  -- compute cache folders and ignore if we can't safely adjust them
  let oldCacheDir ← chunkCacheFolderDefault h oldPath pDoc.id
  let newCacheDir ← chunkCacheFolderDefault h pDoc.path pDoc.id
  let fs ← getFS
  if !fs.exists oldCacheDir || fs.exists newCacheDir then
    leave
  -- if the doc was previously unsaved, we can just move the whole folder
  let removeOldDir ←
    if oldPath = "" then do
      let error ← fsMove h oldCacheDir newCacheDir
      if error.isError then
        -- fall back to copy/remove
        pure true
      else
        leave
    else
      pure false
  let error ← fsCopyDirectoryRecursive h oldCacheDir newCacheDir
  if error.isError then
    logError error
  else if removeOldDir then
    -- remove old dir if we couldn't move the folder above
    let error ← fsRemove h oldCacheDir
    if error.isError then
      logError error

/-- The body of the version loop in `onDocAdded`. -/
def removeForeignVersion (h : Host) (version : FilePath) : Proc Unit := do
  let fs ← getFS
  if fs.isDirectory version && version.filename ≠ kCacheVersion then
    let error ← fsRemove h version
    if error.isError then
      logError error

/-- The block of `onDocAdded` that cleans up incompatible cache versions. -/
def cleanIncompatibleVersions (h : Host) (cachePath : FilePath) : Proc Unit := do
  let fs ← getFS
  if fs.exists cachePath.parent then
    let versions := (fs.children cachePath.parent).2
    forEach versions (removeForeignVersion h)

/-- The handler `onDocAdded(id)`. -/
def onDocAdded (h : Host) (id : String) : Proc Unit := do
  let (error, path) := h.getPath id
  if error.isError then
    logError error
    leave
  -- ignore empty paths and non-R Markdown files
  if path = "" then
    leave
  let docPath := h.resolveAliasedPath path
  if docPath.extensionLowerCase ≠ ".rmd" then
    leave
  let cachePath ← chunkCacheFolderDefault h path id
  let nbPath := docPath.parent.complete (docPath.stem ++ ".Rnb")
  -- clean up incompatible cache versions (as we are about to invalidate them
  -- by mutating the document without updating them)
  cleanIncompatibleVersions h cachePath
  let fs ← getFS
  if !fs.exists cachePath && fs.exists nbPath then
    -- we have a saved representation, but no cache
    let error ← parseRnb h nbPath cachePath
    if error.isError then
      logError error
      leave

/-- The entry point `rs_populateNotebookCache(fileSEXP)`: the string it returns. -/
def rs_populateNotebookCache (h : Host) (file : String) : Proc String := do
  let cacheFolder ← chunkCacheFolder h file "" h.notebookCtxId
  let error ← parseRnb h (h.resolveAliasedPath file) cacheFolder
  if error.isError then
    logError error
  return cacheFolder.absolutePath

/-- The entry point `rs_chunkCacheFolder(fileSEXP)`: the string it returns. -/
def rs_chunkCacheFolder (h : Host) (file : String) : Proc String := do
  let cacheFolder ← chunkCacheFolder h file "" h.contextId
  return cacheFolder.absolutePath

/-- The body of the loop in `cleanUnusedCaches`, for one child of the cache root. -/
def sweepCache (h : Host) (nbCtxId : String) (cache : FilePath) : Proc Unit := do
  -- make sure this looks like a notebook cache
  let fs ← getFS
  if !fs.isDirectory cache then
    leave
  let parts := split cache.stem "-"
  if parts.length ≠ 3 then
    leave
  -- ignore caches from other contexts
  if parts.getD 0 "" ≠ nbCtxId then
    leave
  -- get the path of the notebook associated with the cache
  let (error, path) := h.notebookIdToPath (parts.getD 1 "") nbCtxId
  if error.isError then
    logError error
    leave
  -- is this document still open? if so, leave the cache alone.
  let id := h.getId (h.createAliasedPath path)
  if id ≠ "" then
    leave
  -- check the write time on the chunk defs file
  let chunkDefs := (cache.complete kCacheVersion).complete h.kNotebookChunkDefFilename
  let fs ← getFS
  if !fs.exists chunkDefs then
    leave
  if h.now - fs.lastWriteTime chunkDefs > kCacheAgeThresholdMs then
    -- the cache is old and the document hasn't been opened in a while
    leave
    let error ← fsRemove h cache
    if error.isError then
      logError error

/-- The sweeper `cleanUnusedCaches()`. -/
def cleanUnusedCaches (h : Host) : Proc Unit := do
  let cacheRoot := notebookCacheRoot h
  let fs ← getFS
  if !fs.exists cacheRoot then
    leave
  let (error, caches) := fs.children cacheRoot
  if error.isError then
    logError error
    leave
  let nbCtxId := h.notebookCtxId
  forEach caches (sweepCache h nbCtxId)

/-- The folder returned by `chunkCacheFolder`, as a value. -/
def cacheFolderOf (h : Host) (docPath docId nbCtxId : String) : FilePath :=
  if docPath = "" then ((unsavedNotebookCache h).childPath docId).childPath kCacheVersion
  else ((notebookCacheRoot h).childPath
      (nbCtxId ++ "-" ++ (h.notebookPathToId (h.resolveAliasedPath docPath) nbCtxId).2 ++ "-"
        ++ (h.resolveAliasedPath docPath).stem)).childPath kCacheVersion

/-- The world `chunkCacheFolder` ends in: only the error log may grow. -/
def cacheFolderWorld (h : Host) (docPath nbCtxId : String) (w : World) : World :=
  if docPath ≠ "" ∧ (h.notebookPathToId (h.resolveAliasedPath docPath) nbCtxId).1.isError = true
  then { w with errorLog := w.errorLog ++ [(h.notebookPathToId (h.resolveAliasedPath docPath) nbCtxId).1] }
  else w

/-- The version loop of `onDocAdded` as a fold: the world after the loop body
has run for each listed path in turn. -/
def removeVersions (h : Host) (vs : List FilePath) (u : World) : World :=
  vs.foldl (fun w1 v => (removeForeignVersion h v).exec w1) u

/-! ## A concrete host and concrete worlds -/

/-- A host with one working directory "/w", context "c", a registry that gives
every path the id "i", no open document, and no failing file-system call. -/
def demoHost : Host where
  sharedScratchPath := ⟨["shared"]⟩
  sessionScratchPath := ⟨["session"]⟩
  notebookCtxId := "c"
  contextId := "c"
  resolveAliasedPath := fun s => ⟨["w", s]⟩
  createAliasedPath := fun p => p.filename
  notebookPathToId := fun _ _ => (Error.success, "i")
  notebookIdToPath := fun _ _ => (Error.success, ⟨["w", "a.Rmd"]⟩)
  getId := fun _ => ""
  getPath := fun id => (Error.success, if id = "d" then "a.Rmd" else "")
  getChunkDefs := fun fs _ _ =>
    (Error.success, FS.lastWriteTime fs ⟨["shared", "notebooks", "c-i-a", "1", "chunks.json"]⟩)
  kNotebookChunkDefFilename := "chunks.json"
  parseRnb := fun _ _ _ => (Error.failure 7, [])
  now := 1000
  moveError := fun _ _ => Error.success
  copyError := fun _ _ => (Error.success, 0)
  removeError := fun _ => Error.success

/-- The cache folder of the saved document "/w/a.Rmd" in the demo host. -/
def demoSavedDir : FilePath := ⟨["shared", "notebooks", "c-i-a", "1"]⟩

/-- The cache folder of the saved document "/w/b.Rmd" in the demo host. -/
def demoRenamedDir : FilePath := ⟨["shared", "notebooks", "c-i-b", "1"]⟩

/-- The cache folder of the unsaved document "d" in the demo host. -/
def demoUnsavedDir : FilePath := ⟨["session", "unsaved-notebooks", "d", "1"]⟩

/-- A world in which "/w/a.Rmd" (written at time 10) has a cache folder whose
marker was written at time 20. -/
def demoSavedWorld : World where
  fs := [⟨⟨["w", "a.Rmd"]⟩, false, "text", 10⟩,
         ⟨⟨["shared", "notebooks", "c-i-a", "1", "chunks.json"]⟩, false, "defs", 20⟩]
  calls := []
  errorLog := []

/-- A world in which the unsaved document "d" has a cache folder. -/
def demoUnsavedWorld : World where
  fs := [⟨⟨["session", "unsaved-notebooks", "d", "1", "chunks.json"]⟩, false, "defs", 20⟩]
  calls := []
  errorLog := []

/-- A world in which "/w/a.Rmd" has a notebook "/w/a.Rnb" beside it and no
cache folder. -/
def demoNotebookWorld : World where
  fs := [⟨⟨["w", "a.Rmd"]⟩, false, "text", 10⟩, ⟨⟨["w", "a.Rnb"]⟩, false, "bundle", 10⟩]
  calls := []
  errorLog := []

/-- A world in which the cache of "/w/a.Rmd" holds the current version folder
"1", a folder "0" of another version and a plain file "notes.txt". -/
def demoVersionsWorld : World where
  fs := [⟨⟨["w", "a.Rmd"]⟩, false, "text", 10⟩,
         ⟨⟨["shared", "notebooks", "c-i-a", "1", "chunks.json"]⟩, false, "defs", 20⟩,
         ⟨⟨["shared", "notebooks", "c-i-a", "0", "chunks.json"]⟩, false, "old defs", 5⟩,
         ⟨⟨["shared", "notebooks", "c-i-a", "notes.txt"]⟩, false, "notes", 5⟩]
  calls := []
  errorLog := []

@[simp] theorem bind_apply {α β : Type} (m : Proc α) (f : α → Proc β) (w : World) :
    (m >>= f) w = match m w with
      | (some a, w1) => f a w1
      | (none, w1) => (none, w1) := rfl

@[simp] theorem pure_apply {α : Type} (a : α) (w : World) :
    (pure a : Proc α) w = (some a, w) := rfl

@[simp] theorem leave_apply {α : Type} (w : World) : (leave : Proc α) w = (none, w) := rfl

@[simp] theorem getFS_apply (w : World) : getFS w = (some w.fs, w) := rfl

@[simp] theorem logError_apply (e : Error) (w : World) :
    logError e w = (some (), { w with errorLog := w.errorLog ++ [e] }) := rfl

theorem ite_proc_apply {α : Type} (c : Prop) [Decidable c] (a b : Proc α) (w : World) :
    (if c then a else b) w = if c then a w else b w := by
  split <;> rfl

theorem chunkCacheFolder_apply (h : Host) (docPath docId nbCtxId : String) (w : World) :
    chunkCacheFolder h docPath docId nbCtxId w
      = (some (cacheFolderOf h docPath docId nbCtxId), cacheFolderWorld h docPath nbCtxId w) := by
  unfold chunkCacheFolder cacheFolderOf cacheFolderWorld
  by_cases hp : docPath = ""
  · simp [hp]
  · simp only [hp, if_false]
    cases hE : (h.notebookPathToId (h.resolveAliasedPath docPath) nbCtxId).1.isError <;>
      simp [hE, ite_proc_apply, hp]

@[simp] theorem fsRemove_apply (h : Host) (p : FilePath) (w : World) :
    fsRemove h p w = (some (h.removeError p),
      { w with fs := if (h.removeError p).isError then w.fs else w.fs.erase p,
               calls := w.calls ++ [FsCall.remove p] }) := rfl

@[simp] theorem fsRemoveIfExists_apply (h : Host) (p : FilePath) (w : World) :
    fsRemoveIfExists h p w
      = (some (if w.fs.exists p then h.removeError p else Error.success),
         { w with fs := if (if w.fs.exists p then h.removeError p else Error.success).isError
                        then w.fs else w.fs.erase p,
                  calls := w.calls ++ [FsCall.removeIfExists p] }) := rfl

@[simp] theorem fsMove_apply (h : Host) (src dst : FilePath) (w : World) :
    fsMove h src dst w = (some (moveOutcome h src dst),
      { w with fs := if (moveOutcome h src dst).isError then w.fs
                     else w.fs.map (fun e => if Entry.under src e then e.rebase src dst else e),
               calls := w.calls ++ [FsCall.move src dst] }) := rfl

@[simp] theorem fsCopyDirectoryRecursive_apply (h : Host) (src dst : FilePath) (w : World) :
    fsCopyDirectoryRecursive h src dst w = (some (h.copyError src dst).1,
      { w with fs := if (h.copyError src dst).1.isError
                     then w.fs ++ (copiesOf h w.fs src dst).take (h.copyError src dst).2
                     else w.fs ++ copiesOf h w.fs src dst,
               calls := w.calls ++ [FsCall.copyDirectoryRecursive src dst] }) := rfl

@[simp] theorem parseRnb_apply (h : Host) (rnbFile cacheFolder : FilePath) (w : World) :
    parseRnb h rnbFile cacheFolder w = (some (h.parseRnb w.fs rnbFile cacheFolder).1,
      { w with fs := w.fs ++ (h.parseRnb w.fs rnbFile cacheFolder).2.map
                       (fun e => { e with path := ⟨cacheFolder.comps ++ e.path.comps⟩ }),
               calls := w.calls ++ [FsCall.parseRnb rnbFile cacheFolder] }) := rfl

@[simp] theorem cacheFolderWorld_fs (h : Host) (docPath nbCtxId : String) (w : World) :
    (cacheFolderWorld h docPath nbCtxId w).fs = w.fs := by
  unfold cacheFolderWorld; split <;> rfl

@[simp] theorem cacheFolderWorld_calls (h : Host) (docPath nbCtxId : String) (w : World) :
    (cacheFolderWorld h docPath nbCtxId w).calls = w.calls := by
  unfold cacheFolderWorld; split <;> rfl

theorem chunkCacheFolderDefault_apply (h : Host) (docPath docId : String) (w : World) :
    chunkCacheFolderDefault h docPath docId w
      = (some (cacheFolderOf h docPath docId h.notebookCtxId),
         cacheFolderWorld h docPath h.notebookCtxId w) :=
  chunkCacheFolder_apply h docPath docId h.notebookCtxId w

theorem chunkDefinitionsPath_apply (h : Host) (docPath docId nbCtxId : String) (w : World) :
    chunkDefinitionsPath h docPath docId nbCtxId w
      = (some ((cacheFolderOf h docPath docId nbCtxId).complete h.kNotebookChunkDefFilename),
         cacheFolderWorld h docPath nbCtxId w) := by
  simp [chunkDefinitionsPath, chunkCacheFolder_apply]

/-! ## The file tree: paths below paths -/

theorem under_iff (p : FilePath) (e : Entry) :
    Entry.under p e = true ↔ p.comps <+: e.path.comps := by
  simp [Entry.under]

theorem exists_iff (fs : FS) (p : FilePath) :
    fs.exists p = true ↔ ∃ e ∈ fs, p.comps <+: e.path.comps := by
  simp [FS.exists, List.any_eq_true, under_iff]

theorem exists_eq_false_iff (fs : FS) (p : FilePath) :
    fs.exists p = false ↔ ∀ e ∈ fs, ¬ p.comps <+: e.path.comps := by
  rw [← Bool.not_eq_true, exists_iff]; simp

theorem exists_erase_self (fs : FS) (p : FilePath) : (fs.erase p).exists p = false := by
  rw [exists_eq_false_iff]
  intro e he
  simp only [FS.erase, List.mem_filter, Bool.not_eq_true', ← Bool.not_eq_true, under_iff] at he
  exact he.2

theorem exists_append_left (fs xs : FS) (p : FilePath) (hp : fs.exists p = true) :
    FS.exists (fs ++ xs) p = true := by
  simp only [FS.exists, List.any_append, Bool.or_eq_true] at *
  exact Or.inl hp

theorem filter_under_eq_nil (fs : FS) (p : FilePath) (hp : fs.exists p = false) :
    fs.filter (Entry.under p) = [] := by
  rw [List.filter_eq_nil_iff]
  intro e he
  rw [exists_eq_false_iff] at hp
  rw [under_iff]
  exact hp e he

theorem rebase_under (src dst : FilePath) (e : Entry) : Entry.under dst (e.rebase src dst) = true := by
  rw [under_iff]
  exact List.prefix_append _ _

theorem content_copiesOf (h : Host) (fs : FS) (src dst : FilePath) :
    FS.content (copiesOf h fs src dst) dst = fs.content src := by
  unfold FS.content copiesOf
  induction fs with
  | nil => rfl
  | cons e fs ih =>
    by_cases he : Entry.under src e = true
    · have hu : Entry.under dst { e.rebase src dst with mtime := h.now } = true :=
        rebase_under src dst e
      simp only [List.filter_cons, he, if_true, List.map_cons, hu]
      simp only [List.filter_cons, he, if_true, List.map_cons] at ih
      rw [ih]
      simp [Entry.rebase]
    · simpa only [List.filter_cons, he, if_false] using ih

theorem content_append (fs xs : FS) (p : FilePath) :
    FS.content (fs ++ xs) p = fs.content p ++ FS.content xs p := by
  simp [FS.content]

theorem content_of_not_exists (fs : FS) (p : FilePath) (hp : fs.exists p = false) :
    fs.content p = [] := by
  simp [FS.content, filter_under_eq_nil fs p hp]

theorem content_after_copy (h : Host) (fs : FS) (src dst : FilePath)
    (hdst : fs.exists dst = false) :
    FS.content (fs ++ copiesOf h fs src dst) dst = fs.content src := by
  rw [content_append, content_of_not_exists fs dst hdst, content_copiesOf]
  rfl

theorem content_after_move (fs : FS) (src dst : FilePath) (hdst : fs.exists dst = false) :
    FS.content (fs.map (fun e => if Entry.under src e then e.rebase src dst else e)) dst
      = fs.content src := by
  have hall : ∀ e ∈ fs, Entry.under dst e = false := by
    intro e he
    rw [exists_eq_false_iff] at hdst
    rw [← Bool.not_eq_true, under_iff]
    exact hdst e he
  clear hdst
  unfold FS.content
  induction fs with
  | nil => rfl
  | cons e fs ih =>
    have ih1 := ih (fun x hx => hall x (List.mem_cons_of_mem _ hx))
    have he := hall e (List.mem_cons_self _ _)
    by_cases hs : Entry.under src e = true
    · simp only [List.map_cons, hs, if_true, List.filter_cons, rebase_under]
      rw [ih1]
      simp [Entry.rebase]
    · have hs1 : Entry.under src e = false := by simpa using hs
      simp only [List.map_cons, hs1, Bool.false_eq_true, if_false, List.filter_cons, he]
      exact ih1

theorem not_exists_after_move (fs : FS) (src dst : FilePath) (hdst : fs.exists dst = false)
    (hin : src.comps.isPrefixOf dst.comps = false) :
    FS.exists (fs.map (fun e => if Entry.under src e then e.rebase src dst else e)) src = false := by
  rw [exists_eq_false_iff] at *
  intro e1 he1
  obtain ⟨e, he, rfl⟩ := List.mem_map.mp he1
  by_cases hs : Entry.under src e = true
  · simp only [hs, if_true, Entry.rebase]
    intro hcon
    rcases List.prefix_or_prefix_of_prefix hcon (List.prefix_append dst.comps _) with h1 | h1
    · have : src.comps.isPrefixOf dst.comps = true := by simpa using h1
      rw [hin] at this
      exact Bool.noConfusion this
    · exact hdst e he (h1.trans ((under_iff src e).mp hs))
  · simp only [hs, if_false]
    exact fun hcon => hs ((under_iff src e).mpr hcon)

/-! ## Folder identity, rename and removal -/

/-- C1: `chunkCacheFolder(docPath, docId, nbCtxId)` returns
unsavedRoot/docId/"1" for an empty document path and otherwise
cacheRoot/(nbCtxId-id-stem)/"1", id being what the path-id registry stores for
the resolved path; the last component is the version tag in both cases, and for
a non-empty path the document id plays no part. -/
theorem chunkCacheFolder_layout (h : Host) (docPath docId nbCtxId : String) (w : World) :
    ∃ folder, (chunkCacheFolder h docPath docId nbCtxId w).1 = some folder ∧
      folder = (if docPath = "" then
          ((unsavedNotebookCache h).childPath docId).childPath "1"
        else
          ((notebookCacheRoot h).childPath
            (nbCtxId ++ "-" ++ (h.notebookPathToId (h.resolveAliasedPath docPath) nbCtxId).2
              ++ "-" ++ (h.resolveAliasedPath docPath).stem)).childPath "1") ∧
      folder.filename = "1" ∧ kCacheVersion = "1" ∧
      (docPath ≠ "" → ∀ (docId2 : String) (w2 : World),
        (chunkCacheFolder h docPath docId2 nbCtxId w2).1 = some folder) := by
  refine ⟨cacheFolderOf h docPath docId nbCtxId, by rw [chunkCacheFolder_apply], ?_, ?_, rfl, ?_⟩
  · unfold cacheFolderOf kCacheVersion; rfl
  · unfold cacheFolderOf kCacheVersion
    split <;> simp [FilePath.filename, FilePath.childPath]
  · intro hp docId2 w2
    rw [chunkCacheFolder_apply]
    simp [cacheFolderOf, hp]

/-- C5: when the old cache folder does not exist or the new one already exists,
`onDocRenamed` leaves the file tree as it was and issues no move, copy or
removal. -/
theorem onDocRenamed_noop (h : Host) (oldPath : String) (pDoc : SourceDocument) (w : World)
    (oldCacheDir newCacheDir : FilePath)
    (hold : (chunkCacheFolderDefault h oldPath pDoc.id w).1 = some oldCacheDir)
    (hnew : (chunkCacheFolderDefault h pDoc.path pDoc.id w).1 = some newCacheDir)
    (hg : w.fs.exists oldCacheDir = false ∨ w.fs.exists newCacheDir = true) :
    ((onDocRenamed h oldPath pDoc).exec w).fs = w.fs ∧
    ((onDocRenamed h oldPath pDoc).exec w).calls = w.calls := by
  rw [chunkCacheFolderDefault_apply] at hold hnew
  simp only [Option.some.injEq] at hold hnew
  subst hold hnew
  simp [onDocRenamed, Proc.exec, chunkCacheFolderDefault_apply, ite_proc_apply, hg]

/-- C3 (amended): on a saved-to-saved rename with the old cache folder present,
the new one absent and a successful recursive copy, the new folder holds
exactly the content the old one held, the only mutation issued is that copy,
and the old folder is still there. -/
theorem onDocRenamed_saved_keeps_old (h : Host) (oldPath : String) (pDoc : SourceDocument)
    (w : World) (oldCacheDir newCacheDir : FilePath)
    (hsaved : oldPath ≠ "")
    (hold : (chunkCacheFolderDefault h oldPath pDoc.id w).1 = some oldCacheDir)
    (hnew : (chunkCacheFolderDefault h pDoc.path pDoc.id w).1 = some newCacheDir)
    (hex : w.fs.exists oldCacheDir = true) (hnex : w.fs.exists newCacheDir = false)
    (hcopy : (h.copyError oldCacheDir newCacheDir).1.isError = false) :
    ((onDocRenamed h oldPath pDoc).exec w).fs.content newCacheDir = w.fs.content oldCacheDir ∧
    ((onDocRenamed h oldPath pDoc).exec w).calls
      = w.calls ++ [FsCall.copyDirectoryRecursive oldCacheDir newCacheDir] ∧
    ((onDocRenamed h oldPath pDoc).exec w).fs.exists oldCacheDir = true := by
  rw [chunkCacheFolderDefault_apply] at hold hnew
  simp only [Option.some.injEq] at hold hnew
  subst hold hnew
  simp [onDocRenamed, Proc.exec, chunkCacheFolderDefault_apply, ite_proc_apply, hex, hnex,
    hsaved, hcopy]
  exact ⟨content_after_copy h w.fs _ _ hnex, exists_append_left _ _ _ hex⟩

/-- C4: on an unsaved-to-saved transition with the old cache folder present and
the new one absent: a successful move puts the content at the new folder,
leaves no old folder and is the only call issued; after a failed move the
recursive copy is issued, and `remove` on the old folder is issued exactly when
that copy succeeds (the folder being gone once that removal succeeds), a failed
copy leaving the old folder in place. -/
theorem onDocRenamed_unsaved (h : Host) (oldPath : String) (pDoc : SourceDocument)
    (w : World) (oldCacheDir newCacheDir : FilePath)
    (hunsaved : oldPath = "")
    (hold : (chunkCacheFolderDefault h oldPath pDoc.id w).1 = some oldCacheDir)
    (hnew : (chunkCacheFolderDefault h pDoc.path pDoc.id w).1 = some newCacheDir)
    (hex : w.fs.exists oldCacheDir = true) (hnex : w.fs.exists newCacheDir = false) :
    ((moveOutcome h oldCacheDir newCacheDir).isError = false →
      ((onDocRenamed h oldPath pDoc).exec w).fs.content newCacheDir = w.fs.content oldCacheDir ∧
      ((onDocRenamed h oldPath pDoc).exec w).fs.exists oldCacheDir = false ∧
      ((onDocRenamed h oldPath pDoc).exec w).calls
        = w.calls ++ [FsCall.move oldCacheDir newCacheDir]) ∧
    ((moveOutcome h oldCacheDir newCacheDir).isError = true →
      ((h.copyError oldCacheDir newCacheDir).1.isError = true →
        ((onDocRenamed h oldPath pDoc).exec w).calls
          = w.calls ++ [FsCall.move oldCacheDir newCacheDir,
              FsCall.copyDirectoryRecursive oldCacheDir newCacheDir] ∧
        ((onDocRenamed h oldPath pDoc).exec w).fs.exists oldCacheDir = true) ∧
      ((h.copyError oldCacheDir newCacheDir).1.isError = false →
        ((onDocRenamed h oldPath pDoc).exec w).calls
          = w.calls ++ [FsCall.move oldCacheDir newCacheDir,
              FsCall.copyDirectoryRecursive oldCacheDir newCacheDir,
              FsCall.remove oldCacheDir] ∧
        ((h.removeError oldCacheDir).isError = false →
          ((onDocRenamed h oldPath pDoc).exec w).fs.exists oldCacheDir = false))) := by
  subst hunsaved
  rw [chunkCacheFolderDefault_apply] at hold hnew
  simp only [Option.some.injEq] at hold hnew
  subst hold hnew
  have hin : (moveOutcome h (cacheFolderOf h "" pDoc.id h.notebookCtxId)
      (cacheFolderOf h pDoc.path pDoc.id h.notebookCtxId)).isError = false →
      (cacheFolderOf h "" pDoc.id h.notebookCtxId).comps.isPrefixOf
        (cacheFolderOf h pDoc.path pDoc.id h.notebookCtxId).comps = false := by
    intro hm
    unfold moveOutcome at hm
    split at hm
    · rename_i h1; rw [h1] at hm; exact Bool.noConfusion hm
    · split at hm
      · exact Bool.noConfusion hm
      · rename_i h2; exact Bool.eq_false_iff.mpr h2
  refine ⟨fun hm => ?_, fun hm => ⟨fun hc => ?_, fun hc => ?_⟩⟩
  · simp [onDocRenamed, Proc.exec, chunkCacheFolderDefault_apply, ite_proc_apply, hex, hnex, hm]
    exact ⟨content_after_move _ _ _ hnex, not_exists_after_move _ _ _ hnex (hin hm)⟩
  · simp [onDocRenamed, Proc.exec, chunkCacheFolderDefault_apply, ite_proc_apply, hex, hnex, hm, hc]
    exact exists_append_left _ _ _ hex
  · simp [onDocRenamed, Proc.exec, chunkCacheFolderDefault_apply, ite_proc_apply, hex, hnex, hm, hc]
    refine ⟨?_, fun hr => ?_⟩
    · split <;> simp
    · simp [hr, exists_erase_self]

/-- C5, at a concrete input: renaming "a.Rmd" to "b.Rmd" in a world where the
old cache folder does not exist. -/
theorem onDocRenamed_noop_witness :
    ((onDocRenamed demoHost "a.Rmd" ⟨"d", "b.Rmd"⟩).exec demoUnsavedWorld).fs = demoUnsavedWorld.fs ∧
    ((onDocRenamed demoHost "a.Rmd" ⟨"d", "b.Rmd"⟩).exec demoUnsavedWorld).calls
      = demoUnsavedWorld.calls :=
  onDocRenamed_noop demoHost "a.Rmd" ⟨"d", "b.Rmd"⟩ demoUnsavedWorld demoSavedDir demoRenamedDir
    (by decide) (by decide) (Or.inl (by decide))

/-- C3 as stated fails: "a.Rmd" is renamed to "b.Rmd", the old cache folder
exists, the new one does not, the copy succeeds, and the old cache folder still
exists afterwards. -/
theorem onDocRenamed_saved_old_remains :
    "a.Rmd" ≠ "" ∧
    (chunkCacheFolderDefault demoHost "a.Rmd" "d" demoSavedWorld).1 = some demoSavedDir ∧
    (chunkCacheFolderDefault demoHost "b.Rmd" "d" demoSavedWorld).1 = some demoRenamedDir ∧
    demoSavedWorld.fs.exists demoSavedDir = true ∧
    demoSavedWorld.fs.exists demoRenamedDir = false ∧
    (demoHost.copyError demoSavedDir demoRenamedDir).1.isError = false ∧
    ¬ ((onDocRenamed demoHost "a.Rmd" ⟨"d", "b.Rmd"⟩).exec demoSavedWorld).fs.exists demoSavedDir
        = false := by
  decide

/-- C3 (amended), at a concrete input: the rename of "a.Rmd" to "b.Rmd". -/
theorem onDocRenamed_saved_keeps_old_witness :
    ((onDocRenamed demoHost "a.Rmd" ⟨"d", "b.Rmd"⟩).exec demoSavedWorld).fs.content demoRenamedDir
      = demoSavedWorld.fs.content demoSavedDir ∧
    ((onDocRenamed demoHost "a.Rmd" ⟨"d", "b.Rmd"⟩).exec demoSavedWorld).calls
      = demoSavedWorld.calls ++ [FsCall.copyDirectoryRecursive demoSavedDir demoRenamedDir] ∧
    ((onDocRenamed demoHost "a.Rmd" ⟨"d", "b.Rmd"⟩).exec demoSavedWorld).fs.exists demoSavedDir
      = true :=
  onDocRenamed_saved_keeps_old demoHost "a.Rmd" ⟨"d", "b.Rmd"⟩ demoSavedWorld demoSavedDir
    demoRenamedDir (by decide) (by decide) (by decide) (by decide) (by decide) (by decide)

/-- C4, at a concrete input: the first save of the unsaved document "d" as
"a.Rmd", the move succeeding. -/
theorem onDocRenamed_unsaved_witness :
    ((onDocRenamed demoHost "" ⟨"d", "a.Rmd"⟩).exec demoUnsavedWorld).fs.content demoSavedDir
      = demoUnsavedWorld.fs.content demoUnsavedDir ∧
    ((onDocRenamed demoHost "" ⟨"d", "a.Rmd"⟩).exec demoUnsavedWorld).fs.exists demoUnsavedDir
      = false ∧
    ((onDocRenamed demoHost "" ⟨"d", "a.Rmd"⟩).exec demoUnsavedWorld).calls
      = demoUnsavedWorld.calls ++ [FsCall.move demoUnsavedDir demoSavedDir] :=
  (onDocRenamed_unsaved demoHost "" ⟨"d", "a.Rmd"⟩ demoUnsavedWorld demoUnsavedDir demoSavedDir
    rfl (by decide) (by decide) (by decide) (by decide)).1 (by decide)

theorem onDocRemoved_exec (h : Host) (docId docPath : String) (w : World) :
    ((onDocRemoved h docId docPath).exec w).fs
      = (if docPath ≠ "" ∧ w.fs.exists ((cacheFolderOf h docPath docId h.notebookCtxId).complete
              h.kNotebookChunkDefFilename) = true ∧
            (h.getChunkDefs w.fs docPath docId).2
              ≤ w.fs.lastWriteTime (h.resolveAliasedPath docPath)
         then w.fs
         else if (if w.fs.exists (cacheFolderOf h docPath docId h.notebookCtxId)
                  then h.removeError (cacheFolderOf h docPath docId h.notebookCtxId)
                  else Error.success).isError
           then w.fs else w.fs.erase (cacheFolderOf h docPath docId h.notebookCtxId)) ∧
    ((onDocRemoved h docId docPath).exec w).calls
      = (if docPath ≠ "" ∧ w.fs.exists ((cacheFolderOf h docPath docId h.notebookCtxId).complete
              h.kNotebookChunkDefFilename) = true ∧
            (h.getChunkDefs w.fs docPath docId).2
              ≤ w.fs.lastWriteTime (h.resolveAliasedPath docPath)
         then w.calls
         else w.calls ++ [FsCall.removeIfExists (cacheFolderOf h docPath docId h.notebookCtxId)]) := by
  by_cases h1 : docPath = ""
  · simp [onDocRemoved, Proc.exec, chunkCacheFolderDefault_apply, chunkDefinitionsPath_apply,
      ite_proc_apply, h1, apply_ite Prod.snd, apply_ite World.fs, apply_ite World.calls]
  · by_cases h2 : w.fs.exists ((cacheFolderOf h docPath docId h.notebookCtxId).complete
        h.kNotebookChunkDefFilename) = true
    · by_cases h3 : (h.getChunkDefs w.fs docPath docId).2
          ≤ w.fs.lastWriteTime (h.resolveAliasedPath docPath)
      · simp [onDocRemoved, Proc.exec, chunkCacheFolderDefault_apply, chunkDefinitionsPath_apply,
          ite_proc_apply, h1, h2, h3]
      · simp [onDocRemoved, Proc.exec, chunkCacheFolderDefault_apply, chunkDefinitionsPath_apply,
          ite_proc_apply, h1, h2, h3, apply_ite Prod.snd, apply_ite World.fs,
          apply_ite World.calls]
    · simp [onDocRemoved, Proc.exec, chunkCacheFolderDefault_apply, chunkDefinitionsPath_apply,
        ite_proc_apply, h1, h2, apply_ite Prod.snd, apply_ite World.fs, apply_ite World.calls]

/-- C2: `onDocRemoved(docId, docPath)` leaves the tree untouched and issues no
call exactly when the path is non-empty, the chunk-definitions marker exists
and the write time read for the marker is at most the last write time of the
document file; in every other case it issues `removeIfExists` on the cache
folder, after which the folder does not exist unless that removal fails. -/
theorem onDocRemoved_keeps_iff_in_sync (h : Host) (docId docPath : String) (w : World)
    (cacheFolder defFile : FilePath)
    (hcf : (chunkCacheFolderDefault h docPath docId w).1 = some cacheFolder)
    (hdf : (chunkDefinitionsPath h docPath docId h.notebookCtxId w).1 = some defFile) :
    ((docPath ≠ "" ∧ w.fs.exists defFile = true ∧
        (h.getChunkDefs w.fs docPath docId).2
          ≤ w.fs.lastWriteTime (h.resolveAliasedPath docPath)) →
      ((onDocRemoved h docId docPath).exec w).fs = w.fs ∧
      ((onDocRemoved h docId docPath).exec w).calls = w.calls) ∧
    (¬ (docPath ≠ "" ∧ w.fs.exists defFile = true ∧
        (h.getChunkDefs w.fs docPath docId).2
          ≤ w.fs.lastWriteTime (h.resolveAliasedPath docPath)) →
      ((onDocRemoved h docId docPath).exec w).calls
        = w.calls ++ [FsCall.removeIfExists cacheFolder] ∧
      ((h.removeError cacheFolder).isError = false →
        ((onDocRemoved h docId docPath).exec w).fs.exists cacheFolder = false) ∧
      (w.fs.exists cacheFolder = false →
        ((onDocRemoved h docId docPath).exec w).fs.exists cacheFolder = false)) := by
  rw [chunkCacheFolderDefault_apply] at hcf
  rw [chunkDefinitionsPath_apply] at hdf
  simp only [Option.some.injEq] at hcf hdf
  subst hcf hdf
  obtain ⟨hfs, hcalls⟩ := onDocRemoved_exec h docId docPath w
  constructor
  · intro hk
    rw [hfs, hcalls, if_pos hk, if_pos hk]
    exact ⟨rfl, rfl⟩
  · intro hn
    rw [hfs, hcalls, if_neg hn, if_neg hn]
    refine ⟨rfl, fun hr => ?_, fun hx => ?_⟩
    · by_cases hx : w.fs.exists (cacheFolderOf h docPath docId h.notebookCtxId) = true
      · simp [hx, hr, exists_erase_self]
      · simp [hx, Error.isError, exists_erase_self]
    · simp [hx, Error.isError, exists_erase_self]

/-- C2, at a concrete input: closing "a.Rmd" while its marker (time 20) is newer
than the file (time 10) removes the cache folder. -/
theorem onDocRemoved_keeps_iff_in_sync_witness :
    ¬ ("a.Rmd" ≠ "" ∧ demoSavedWorld.fs.exists (demoSavedDir.complete "chunks.json") = true ∧
        (demoHost.getChunkDefs demoSavedWorld.fs "a.Rmd" "d").2
          ≤ demoSavedWorld.fs.lastWriteTime (demoHost.resolveAliasedPath "a.Rmd")) ∧
    ((onDocRemoved demoHost "d" "a.Rmd").exec demoSavedWorld).calls
      = demoSavedWorld.calls ++ [FsCall.removeIfExists demoSavedDir] ∧
    ((onDocRemoved demoHost "d" "a.Rmd").exec demoSavedWorld).fs.exists demoSavedDir = false :=
  ⟨by decide,
   ((onDocRemoved_keeps_iff_in_sync demoHost "d" "a.Rmd" demoSavedWorld demoSavedDir
      (demoSavedDir.complete "chunks.json") (by decide) (by decide)).2 (by decide)).1,
   ((onDocRemoved_keeps_iff_in_sync demoHost "d" "a.Rmd" demoSavedWorld demoSavedDir
      (demoSavedDir.complete "chunks.json") (by decide) (by decide)).2 (by decide)).2.1
      (by decide)⟩

/-! ## The sweeper -/

theorem forEach_apply {α : Type} (xs : List α) (body : α → Proc Unit) (w : World) :
    forEach xs body w = (some (), xs.foldl (fun w1 x => (body x).exec w1) w) := rfl

theorem foldl_frame {α : Type} (body : α → Proc Unit)
    (hbody : ∀ x w, ((body x).exec w).fs = w.fs ∧ ((body x).exec w).calls = w.calls)
    (xs : List α) (w : World) :
    (xs.foldl (fun w1 x => (body x).exec w1) w).fs = w.fs ∧
    (xs.foldl (fun w1 x => (body x).exec w1) w).calls = w.calls := by
  induction xs generalizing w with
  | nil => exact ⟨rfl, rfl⟩
  | cons x xs ih =>
    simp only [List.foldl_cons]
    obtain ⟨h1, h2⟩ := ih ((body x).exec w)
    obtain ⟨h3, h4⟩ := hbody x w
    exact ⟨h1.trans h3, h2.trans h4⟩

theorem sweepCache_frame (h : Host) (nbCtxId : String) (cache : FilePath) (w : World) :
    ((sweepCache h nbCtxId cache).exec w).fs = w.fs ∧
    ((sweepCache h nbCtxId cache).exec w).calls = w.calls := by
  simp only [sweepCache, Proc.exec, bind_apply, getFS_apply, ite_proc_apply, leave_apply,
    pure_apply, logError_apply]
  constructor <;> (repeat (first | rfl | split))

theorem cleanUnusedCaches_frame (h : Host) (w : World) :
    ((cleanUnusedCaches h).exec w).fs = w.fs ∧ ((cleanUnusedCaches h).exec w).calls = w.calls := by
  have hloop := foldl_frame (sweepCache h h.notebookCtxId) (sweepCache_frame h h.notebookCtxId)
  simp only [cleanUnusedCaches, Proc.exec, bind_apply, getFS_apply, ite_proc_apply, leave_apply,
    pure_apply, logError_apply, forEach_apply]
  constructor <;> (repeat (first | rfl | exact (hloop _ _).1 | exact (hloop _ _).2 | split))

/-- C10: a run of `cleanUnusedCaches` leaves the file tree as it was and issues
no mutating call (the `remove` after the `continue` is never reached), for
every host state and every world; the same holds for any number of runs, the
host state (registry, clock) changing freely between them. -/
theorem cleanUnusedCaches_removes_nothing (h : Host) (hs : List Host) (w : World) :
    ((cleanUnusedCaches h).exec w).fs = w.fs ∧
    ((cleanUnusedCaches h).exec w).calls = w.calls ∧
    (hs.foldl (fun w1 h1 => (cleanUnusedCaches h1).exec w1) w).fs = w.fs ∧
    (hs.foldl (fun w1 h1 => (cleanUnusedCaches h1).exec w1) w).calls = w.calls := by
  refine ⟨(cleanUnusedCaches_frame h w).1, (cleanUnusedCaches_frame h w).2, ?_⟩
  exact foldl_frame cleanUnusedCaches cleanUnusedCaches_frame hs w

/-- C8: the threshold the sweeper compares seconds with is 172800000 (two days
in milliseconds). For the closed document of the demo host, whose marker was
written at time 20, the sweeper at time 259220 (three days later) runs past the
age test without entering the branch for old caches, and enters it only from an
age of 172800001 seconds on. -/
theorem sweepCache_three_days_not_old :
    kCacheAgeThresholdMs = 172800000 ∧
    (259220 : Int) - 20 > 172800 ∧
    (sweepCache { demoHost with now := 259220 } "c" demoSavedDir.parent demoSavedWorld).1
      = some () ∧
    (sweepCache { demoHost with now := 172800020 } "c" demoSavedDir.parent demoSavedWorld).1
      = some () ∧
    (sweepCache { demoHost with now := 172800021 } "c" demoSavedDir.parent demoSavedWorld).1
      = none := by
  decide

/-! ## Parser failures -/

theorem cleanIncompatibleVersions_apply (h : Host) (cachePath : FilePath) (w : World) :
    cleanIncompatibleVersions h cachePath w
      = (some (), (cleanIncompatibleVersions h cachePath).exec w) := by
  simp only [cleanIncompatibleVersions, Proc.exec, bind_apply, getFS_apply, ite_proc_apply,
    forEach_apply, pure_apply]
  split <;> rfl

/-- C9 as stated fails: the parser fails on "a.Rmd", and `rs_populateNotebookCache`
still returns the cache folder path, the error going to the log only. -/
theorem rs_populateNotebookCache_returns_path_on_failure :
    (demoHost.parseRnb demoSavedWorld.fs (demoHost.resolveAliasedPath "a.Rmd") demoSavedDir).1.isError
      = true ∧
    (rs_populateNotebookCache demoHost "a.Rmd" demoSavedWorld).1
      = some "/shared/notebooks/c-i-a/1" ∧
    demoSavedDir.absolutePath = "/shared/notebooks/c-i-a/1" ∧
    ((rs_populateNotebookCache demoHost "a.Rmd").exec demoSavedWorld).errorLog
      = [Error.failure 7] := by
  decide

/-- C9 (amended): a failure of `parseRnb` is passed to `LOG_ERROR` and to nobody
else: `rs_populateNotebookCache` appends it to the error log and returns the
cache folder path all the same; `onDocAdded`, when it reaches the parser and the
parser fails, appends it to the error log and ends, yielding no value. -/
theorem parseRnb_failure_is_logged (h : Host) (w : World) :
    (∀ (file : String) (cacheFolder : FilePath) (w1 : World),
      chunkCacheFolder h file "" h.notebookCtxId w = (some cacheFolder, w1) →
      (h.parseRnb w1.fs (h.resolveAliasedPath file) cacheFolder).1.isError = true →
      (rs_populateNotebookCache h file w).1 = some cacheFolder.absolutePath ∧
      ((rs_populateNotebookCache h file).exec w).errorLog
        = w1.errorLog ++ [(h.parseRnb w1.fs (h.resolveAliasedPath file) cacheFolder).1]) ∧
    (∀ (id : String) (cachePath : FilePath) (w1 w2 : World),
      (h.getPath id).1.isError = false → (h.getPath id).2 ≠ "" →
      (h.resolveAliasedPath (h.getPath id).2).extensionLowerCase = ".rmd" →
      chunkCacheFolderDefault h (h.getPath id).2 id w = (some cachePath, w1) →
      (cleanIncompatibleVersions h cachePath).exec w1 = w2 →
      w2.fs.exists cachePath = false →
      w2.fs.exists ((h.resolveAliasedPath (h.getPath id).2).parent.complete
        ((h.resolveAliasedPath (h.getPath id).2).stem ++ ".Rnb")) = true →
      (h.parseRnb w2.fs ((h.resolveAliasedPath (h.getPath id).2).parent.complete
        ((h.resolveAliasedPath (h.getPath id).2).stem ++ ".Rnb")) cachePath).1.isError = true →
      (onDocAdded h id w).1 = none ∧
      ((onDocAdded h id).exec w).errorLog
        = w2.errorLog ++ [(h.parseRnb w2.fs ((h.resolveAliasedPath (h.getPath id).2).parent.complete
            ((h.resolveAliasedPath (h.getPath id).2).stem ++ ".Rnb")) cachePath).1]) := by
  constructor
  · intro file cacheFolder w1 hcf hfail
    simp [rs_populateNotebookCache, Proc.exec, hcf, hfail]
  · intro id cachePath w1 w2 hget hne hext hcp hclean hnex hnb hfail
    have hcl : cleanIncompatibleVersions h cachePath w1 = (some (), w2) := by
      rw [cleanIncompatibleVersions_apply, hclean]
    simp [onDocAdded, Proc.exec, hcp, hget, hne, hext, ite_proc_apply, hcl, hnex, hnb, hfail]

/-- C9 (amended), at concrete inputs: the parser of the demo host fails, both
for the on-demand entry point and for the add handler. -/
theorem parseRnb_failure_is_logged_witness :
    ((rs_populateNotebookCache demoHost "a.Rmd" demoSavedWorld).1
        = some demoSavedDir.absolutePath ∧
      ((rs_populateNotebookCache demoHost "a.Rmd").exec demoSavedWorld).errorLog
        = demoSavedWorld.errorLog ++ [Error.failure 7]) ∧
    ((onDocAdded demoHost "d" demoNotebookWorld).1 = none ∧
      ((onDocAdded demoHost "d").exec demoNotebookWorld).errorLog
        = demoNotebookWorld.errorLog ++ [Error.failure 7]) :=
  ⟨(parseRnb_failure_is_logged demoHost demoSavedWorld).1 "a.Rmd" demoSavedDir demoSavedWorld
      (by decide) (by decide),
   (parseRnb_failure_is_logged demoHost demoNotebookWorld).2 "d" demoSavedDir demoNotebookWorld
      demoNotebookWorld (by decide) (by decide) (by decide) (by decide) (by decide) (by decide)
      (by decide) (by decide)⟩

/-! ## Folder names -/

theorem breakAt_shorter (d : List Char) (hd : d ≠ []) (s a r : List Char)
    (hb : breakAt d s = some (a, r)) : r.length < s.length := by
  induction s generalizing a r with
  | nil => simp [breakAt, hd] at hb
  | cons c s ih =>
    unfold breakAt at hb
    split at hb
    · simp only [Option.some.injEq, Prod.mk.injEq] at hb
      rw [← hb.2]
      have hpos : 0 < d.length := List.length_pos.mpr hd
      simp only [List.length_drop, List.length_cons]
      omega
    · cases hrec : breakAt d s with
      | none => simp [hrec] at hb
      | some pr =>
        obtain ⟨a1, r1⟩ := pr
        simp only [hrec, Option.map_some', Option.some.injEq, Prod.mk.injEq] at hb
        have := ih a1 r1 hrec
        rw [← hb.2]
        simp only [List.length_cons]
        omega

/-- The number of rounds `split` allows never cuts a split short: one more
round changes nothing. -/
theorem splitFields_enough (d : List Char) (hd : d ≠ []) (n : Nat) (s : List Char)
    (hn : s.length ≤ n) : splitFields d (n + 1) s = splitFields d n s := by
  induction n generalizing s with
  | zero =>
    have hs : s = [] := List.length_eq_zero.mp (Nat.le_zero.mp hn)
    subst hs
    simp [splitFields, breakAt, hd]
  | succ n ih =>
    cases hb : breakAt d s with
    | none => simp [splitFields, hb]
    | some pr =>
      obtain ⟨a, r⟩ := pr
      have hlt := breakAt_shorter d hd s a r hb
      have hr : r.length ≤ n := by omega
      rw [splitFields, hb]
      simp only
      rw [ih r hr]
      conv_rhs => rw [splitFields, hb]

theorem sibling_eq_of_under (P : FilePath) (a b : String) (x : List String)
    (ha : (P.childPath a).comps <+: x) (hb : (P.childPath b).comps <+: x) : a = b := by
  obtain ⟨r1, h1⟩ := ha
  obtain ⟨r2, h2⟩ := hb
  simp only [FilePath.childPath, List.append_assoc, List.singleton_append] at h1 h2
  have h3 := List.append_cancel_left (h1.trans h2.symm)
  exact (List.cons.inj h3).1

theorem any_filter_of_imp (fs : FS) (p f : Entry → Bool) (himp : ∀ e, f e = true → p e = true) :
    (fs.filter p).any f = fs.any f := by
  induction fs with
  | nil => rfl
  | cons e fs ih =>
    by_cases hp : p e = true
    · simp [List.filter_cons, hp, ih]
    · have hf : f e = false := by
        cases hfe : f e
        · rfl
        · exact absurd (himp e hfe) hp
      simp [List.filter_cons, hp, hf, ih]

theorem exists_of_around (fs : FS) (q : FilePath) :
    fs.exists q = (fs.around q).any (Entry.under q) := by
  unfold FS.exists FS.around
  rw [any_filter_of_imp]
  intro e he
  simp [he]

theorem blockedByFile_of_around (fs : FS) (q : FilePath) :
    fs.blockedByFile q
      = (fs.around q).any (fun e => e.path.comps.isPrefixOf q.comps && !e.isDir) := by
  unfold FS.blockedByFile FS.around
  rw [any_filter_of_imp]
  intro e he
  simp only [Bool.and_eq_true] at he
  simp [he.1]

theorem isDirectory_of_around (fs1 fs2 : FS) (q : FilePath)
    (h : fs1.around q = fs2.around q) : fs1.isDirectory q = fs2.isDirectory q := by
  unfold FS.isDirectory
  rw [exists_of_around fs1, exists_of_around fs2, blockedByFile_of_around fs1,
    blockedByFile_of_around fs2, h]

theorem subtree_of_around (fs : FS) (q : FilePath) :
    fs.subtree q = (fs.around q).filter (Entry.under q) := by
  unfold FS.subtree FS.around
  rw [List.filter_filter]
  congr 1
  funext e
  cases Entry.under q e <;> simp

theorem around_erase_sibling (fs : FS) (P : FilePath) (a b : String) (hab : a ≠ b) :
    (fs.erase (P.childPath a)).around (P.childPath b) = fs.around (P.childPath b) := by
  unfold FS.around FS.erase
  rw [List.filter_filter]
  congr 1
  funext e
  by_cases hu : Entry.under (P.childPath a) e = true
  · have h1 : Entry.under (P.childPath b) e = false := by
      rw [← Bool.not_eq_true, under_iff]
      exact fun hb => hab (sibling_eq_of_under P a b _ ((under_iff _ _).mp hu) hb)
    have h2 : e.path.comps.isPrefixOf (P.childPath b).comps = false := by
      rw [← Bool.not_eq_true]
      intro hb
      have hb1 : e.path.comps <+: (P.childPath b).comps := by simpa using hb
      exact hab (sibling_eq_of_under P a b _ (((under_iff _ _).mp hu).trans hb1)
        (List.prefix_refl _))
    simp [h1, h2]
  · have hu1 : Entry.under (P.childPath a) e = false := by simpa using hu
    simp [hu1]

theorem removeForeignVersion_exec (h : Host) (v : FilePath) (u : World) :
    ((removeForeignVersion h v).exec u).fs
      = (if u.fs.isDirectory v = true ∧ v.filename ≠ kCacheVersion
         then (if (h.removeError v).isError then u.fs else u.fs.erase v) else u.fs) ∧
    ((removeForeignVersion h v).exec u).calls
      = (if u.fs.isDirectory v = true ∧ v.filename ≠ kCacheVersion
         then u.calls ++ [FsCall.remove v] else u.calls) := by
  by_cases hc : u.fs.isDirectory v = true ∧ v.filename ≠ kCacheVersion
  · simp [removeForeignVersion, Proc.exec, ite_proc_apply, hc.1, hc.2, apply_ite Prod.snd,
      apply_ite World.fs, apply_ite World.calls]
  · rw [if_neg hc, if_neg hc]
    have hc1 : ¬ (u.fs.isDirectory v = true ∧ ¬ v.filename = kCacheVersion) := hc
    simp [removeForeignVersion, Proc.exec, ite_proc_apply, hc1]

theorem childPath_filename (P : FilePath) (n : String) : (P.childPath n).filename = n := by
  simp [FilePath.childPath, FilePath.filename]

theorem childPath_injective (P : FilePath) (a b : String)
    (hab : P.childPath a = P.childPath b) : a = b := by
  simp only [FilePath.childPath, FilePath.mk.injEq] at hab
  simpa using List.append_cancel_left hab

theorem exists_erase_of_not_exists (fs : FS) (v q : FilePath) (hq : fs.exists q = false) :
    (fs.erase v).exists q = false := by
  rw [exists_eq_false_iff] at *
  intro e he
  exact hq e (List.mem_filter.mp he).1

theorem removeVersions_cons (h : Host) (v : FilePath) (vs : List FilePath) (u : World) :
    removeVersions h (v :: vs) u = removeVersions h vs ((removeForeignVersion h v).exec u) := rfl

theorem removeVersions_mono (h : Host) (vs : List FilePath) (u : World) :
    ∃ extra, (removeVersions h vs u).calls = u.calls ++ extra ∧
      ∀ q, u.fs.exists q = false → (removeVersions h vs u).fs.exists q = false := by
  induction vs generalizing u with
  | nil => exact ⟨[], by simp [removeVersions], fun q hq => hq⟩
  | cons v vs ih =>
    obtain ⟨hfs, hcalls⟩ := removeForeignVersion_exec h v u
    obtain ⟨extra, h1, h2⟩ := ih ((removeForeignVersion h v).exec u)
    rw [removeVersions_cons]
    by_cases hc : u.fs.isDirectory v = true ∧ v.filename ≠ kCacheVersion
    · rw [if_pos hc] at hfs hcalls
      refine ⟨FsCall.remove v :: extra, by rw [h1, hcalls]; simp, fun q hq => h2 q ?_⟩
      rw [hfs]
      split
      · exact hq
      · exact exists_erase_of_not_exists _ _ _ hq
    · rw [if_neg hc] at hfs hcalls
      exact ⟨extra, by rw [h1, hcalls], fun q hq => h2 q (by rw [hfs]; exact hq)⟩

theorem removeVersions_keep (h : Host) (P : FilePath) (m : String) (ns : List String) (u : World)
    (hm : m = kCacheVersion ∨ u.fs.isDirectory (P.childPath m) = false) :
    (removeVersions h (ns.map P.childPath) u).fs.around (P.childPath m)
      = u.fs.around (P.childPath m) ∧
    ∃ extra, (removeVersions h (ns.map P.childPath) u).calls = u.calls ++ extra ∧
      FsCall.remove (P.childPath m) ∉ extra := by
  induction ns generalizing u with
  | nil => exact ⟨rfl, [], by simp [removeVersions], by simp⟩
  | cons x xs ih =>
    obtain ⟨hfs, hcalls⟩ := removeForeignVersion_exec h (P.childPath x) u
    rw [List.map_cons, removeVersions_cons]
    have hstep : ((removeForeignVersion h (P.childPath x)).exec u).fs.around (P.childPath m)
          = u.fs.around (P.childPath m) ∧
        ∃ e1, ((removeForeignVersion h (P.childPath x)).exec u).calls = u.calls ++ e1 ∧
          FsCall.remove (P.childPath m) ∉ e1 := by
      by_cases hc : u.fs.isDirectory (P.childPath x) = true ∧
          (P.childPath x).filename ≠ kCacheVersion
      · rw [if_pos hc] at hfs hcalls
        have hxm : x ≠ m := by
          rintro rfl
          rcases hm with hm | hm
          · exact hc.2 (by rw [childPath_filename]; exact hm)
          · rw [hm] at hc; exact Bool.noConfusion hc.1
        refine ⟨?_, [FsCall.remove (P.childPath x)], hcalls, ?_⟩
        · rw [hfs]
          split
          · rfl
          · exact around_erase_sibling _ P x m hxm
        · simp only [List.mem_singleton, FsCall.remove.injEq]
          exact fun heq => hxm (childPath_injective P x m heq.symm)
      · rw [if_neg hc] at hfs hcalls
        exact ⟨by rw [hfs], [], by rw [hcalls]; simp, by simp⟩
    obtain ⟨ha1, e1, hc1, hn1⟩ := hstep
    have hm1 : m = kCacheVersion ∨
        ((removeForeignVersion h (P.childPath x)).exec u).fs.isDirectory (P.childPath m) = false := by
      rcases hm with hm | hm
      · exact Or.inl hm
      · exact Or.inr (by rw [isDirectory_of_around _ _ _ ha1]; exact hm)
    obtain ⟨ha2, e2, hc2, hn2⟩ := ih ((removeForeignVersion h (P.childPath x)).exec u) hm1
    refine ⟨ha2.trans ha1, e1 ++ e2, by rw [hc2, hc1, List.append_assoc], ?_⟩
    simp only [List.mem_append, not_or]
    exact ⟨hn1, hn2⟩

theorem removeVersions_removed (h : Host) (P : FilePath) (n : String) (ns : List String)
    (u : World) (hn : n ∈ ns) (hv : n ≠ kCacheVersion)
    (hd : u.fs.isDirectory (P.childPath n) = true) :
    ∃ extra, (removeVersions h (ns.map P.childPath) u).calls = u.calls ++ extra ∧
      FsCall.remove (P.childPath n) ∈ extra ∧
      ((h.removeError (P.childPath n)).isError = false →
        (removeVersions h (ns.map P.childPath) u).fs.exists (P.childPath n) = false) := by
  induction ns generalizing u with
  | nil => cases hn
  | cons x xs ih =>
    obtain ⟨hfs, hcalls⟩ := removeForeignVersion_exec h (P.childPath x) u
    rw [List.map_cons, removeVersions_cons]
    by_cases hx : x = n
    · subst hx
      have hc : u.fs.isDirectory (P.childPath x) = true ∧
          (P.childPath x).filename ≠ kCacheVersion := ⟨hd, by rw [childPath_filename]; exact hv⟩
      rw [if_pos hc] at hfs hcalls
      obtain ⟨extra, h1, h2⟩ := removeVersions_mono h (xs.map P.childPath)
        ((removeForeignVersion h (P.childPath x)).exec u)
      refine ⟨FsCall.remove (P.childPath x) :: extra, by rw [h1, hcalls]; simp,
        List.mem_cons_self _ _, fun hok => h2 _ ?_⟩
      rw [hfs, hok]
      exact exists_erase_self _ _
    · have hmem : n ∈ xs := by
        rcases List.mem_cons.mp hn with h1 | h1
        · exact absurd h1.symm hx
        · exact h1
      have haround : ((removeForeignVersion h (P.childPath x)).exec u).fs.around (P.childPath n)
          = u.fs.around (P.childPath n) := by
        rw [hfs]
        split
        · split
          · rfl
          · exact around_erase_sibling _ P x n hx
        · rfl
      have hd1 : ((removeForeignVersion h (P.childPath x)).exec u).fs.isDirectory (P.childPath n)
          = true := by
        rw [isDirectory_of_around _ _ _ haround]; exact hd
      obtain ⟨extra, h1, h2, h3⟩ := ih ((removeForeignVersion h (P.childPath x)).exec u) hmem hd1
      by_cases hc : u.fs.isDirectory (P.childPath x) = true ∧
          (P.childPath x).filename ≠ kCacheVersion
      · rw [if_pos hc] at hcalls
        exact ⟨FsCall.remove (P.childPath x) :: extra, by rw [h1, hcalls]; simp,
          List.mem_cons_of_mem _ h2, h3⟩
      · rw [if_neg hc] at hcalls
        exact ⟨extra, by rw [h1, hcalls], h2, h3⟩

theorem isDirectory_child (fs : FS) (P : FilePath) (n : String)
    (hd : fs.isDirectory (P.childPath n) = true) :
    n ∈ fs.childNames P ∧ fs.isDirectory P = true := by
  simp only [FS.isDirectory, Bool.and_eq_true, Bool.not_eq_true'] at hd
  obtain ⟨hex, hblock⟩ := hd
  obtain ⟨e, he, hpre⟩ := (exists_iff _ _).mp hex
  have hP : P.comps <+: e.path.comps :=
    (List.prefix_append P.comps [n]).trans hpre
  constructor
  · unfold FS.childNames
    rw [List.mem_dedup, List.mem_filterMap]
    refine ⟨e, he, ?_⟩
    rw [if_pos ((under_iff P e).mpr hP)]
    obtain ⟨r, hr⟩ := hpre
    rw [← hr]
    simp [FilePath.childPath]
  · simp only [FS.isDirectory, Bool.and_eq_true, Bool.not_eq_true']
    refine ⟨(exists_iff _ _).mpr ⟨e, he, hP⟩, ?_⟩
    rw [← Bool.not_eq_true] at hblock ⊢
    intro hb
    apply hblock
    simp only [FS.blockedByFile, List.any_eq_true, Bool.and_eq_true] at hb ⊢
    obtain ⟨x, hx, hx1, hx2⟩ := hb
    refine ⟨x, hx, ?_, hx2⟩
    have hx3 : x.path.comps <+: P.comps := by simpa using hx1
    have hx4 : x.path.comps <+: (P.childPath n).comps :=
      hx3.trans (List.prefix_append P.comps [n])
    simpa using hx4

theorem cleanIncompatibleVersions_exec (h : Host) (cachePath : FilePath) (w : World) :
    (cleanIncompatibleVersions h cachePath).exec w
      = (if w.fs.exists cachePath.parent = true
         then removeVersions h (w.fs.children cachePath.parent).2 w else w) := by
  simp only [cleanIncompatibleVersions, Proc.exec, bind_apply, getFS_apply, ite_proc_apply,
    forEach_apply, pure_apply]
  split <;> rfl

theorem cacheFolderOf_parent (h : Host) (docPath docId nbCtxId : String) :
    (cacheFolderOf h docPath docId nbCtxId).parent.childPath kCacheVersion
      = cacheFolderOf h docPath docId nbCtxId := by
  unfold cacheFolderOf
  split <;> simp [FilePath.parent, FilePath.childPath]

theorem subtree_append_parsed (fs : FS) (P : FilePath) (name : String) (parsed : List Entry)
    (hname : name ≠ kCacheVersion) :
    FS.subtree (fs ++ parsed.map
        (fun e => { e with path := ⟨(P.childPath kCacheVersion).comps ++ e.path.comps⟩ }))
      (P.childPath name) = fs.subtree (P.childPath name) := by
  unfold FS.subtree
  rw [List.filter_append]
  have hnil : (parsed.map
      (fun e => { e with path := ⟨(P.childPath kCacheVersion).comps ++ e.path.comps⟩ })).filter
        (Entry.under (P.childPath name)) = [] := by
    rw [List.filter_eq_nil_iff]
    intro e he
    obtain ⟨x, _, rfl⟩ := List.mem_map.mp he
    rw [under_iff]
    intro hpre
    exact hname (sibling_eq_of_under P name kCacheVersion _ hpre (List.prefix_append _ _))
  rw [hnil, List.append_nil]

theorem exists_of_subtree (fs : FS) (q : FilePath) :
    fs.exists q = (fs.subtree q).any (Entry.under q) := by
  unfold FS.exists FS.subtree
  rw [any_filter_of_imp]
  exact fun e he => he

theorem onDocAdded_exec (h : Host) (id : String) (w : World)
    (hget : (h.getPath id).1.isError = false) (hne : (h.getPath id).2 ≠ "")
    (hext : (h.resolveAliasedPath (h.getPath id).2).extensionLowerCase = ".rmd")
    (cachePath nbPath : FilePath) (u : World)
    (hcp : cachePath = cacheFolderOf h (h.getPath id).2 id h.notebookCtxId)
    (hnb : nbPath = (h.resolveAliasedPath (h.getPath id).2).parent.complete
      ((h.resolveAliasedPath (h.getPath id).2).stem ++ ".Rnb"))
    (hu : u = (cleanIncompatibleVersions h cachePath).exec
      (cacheFolderWorld h (h.getPath id).2 h.notebookCtxId w)) :
    ((onDocAdded h id).exec w).fs
      = (if u.fs.exists cachePath = false ∧ u.fs.exists nbPath = true
         then u.fs ++ (h.parseRnb u.fs nbPath cachePath).2.map
            (fun e => { e with path := ⟨cachePath.comps ++ e.path.comps⟩ })
         else u.fs) ∧
    ((onDocAdded h id).exec w).calls
      = (if u.fs.exists cachePath = false ∧ u.fs.exists nbPath = true
         then u.calls ++ [FsCall.parseRnb nbPath cachePath] else u.calls) := by
  have hcl : cleanIncompatibleVersions h cachePath
      (cacheFolderWorld h (h.getPath id).2 h.notebookCtxId w) = (some (), u) := by
    rw [cleanIncompatibleVersions_apply, hu]
  subst hcp hnb
  by_cases hc : u.fs.exists (cacheFolderOf h (h.getPath id).2 id h.notebookCtxId) = false ∧
      u.fs.exists ((h.resolveAliasedPath (h.getPath id).2).parent.complete
        ((h.resolveAliasedPath (h.getPath id).2).stem ++ ".Rnb")) = true
  · rw [if_pos hc, if_pos hc]
    simp [onDocAdded, Proc.exec, chunkCacheFolderDefault_apply, hget, hne, hext, ite_proc_apply,
      hcl, hc.1, hc.2, apply_ite Prod.snd, apply_ite World.fs, apply_ite World.calls]
  · rw [if_neg hc, if_neg hc]
    have hc1 : ¬ (u.fs.exists (cacheFolderOf h (h.getPath id).2 id h.notebookCtxId) = false ∧
      u.fs.exists ((h.resolveAliasedPath (h.getPath id).2).parent.complete
        ((h.resolveAliasedPath (h.getPath id).2).stem ++ ".Rnb")) = true) := hc
    simp [onDocAdded, Proc.exec, chunkCacheFolderDefault_apply, hget, hne, hext, ite_proc_apply,
      hcl, hc1]

theorem cleanIncompatibleVersions_as_fold (h : Host) (cachePath : FilePath) (w1 : World) :
    ∃ ns : List String,
      (cleanIncompatibleVersions h cachePath).exec w1
        = removeVersions h (ns.map cachePath.parent.childPath) w1 ∧
      ∀ n, w1.fs.isDirectory (cachePath.parent.childPath n) = true → n ∈ ns := by
  rw [cleanIncompatibleVersions_exec]
  by_cases hd : w1.fs.isDirectory cachePath.parent = true
  · have hex : w1.fs.exists cachePath.parent = true := by
      simp only [FS.isDirectory, Bool.and_eq_true] at hd
      exact hd.1
    refine ⟨w1.fs.childNames cachePath.parent, ?_, fun n hn => (isDirectory_child _ _ _ hn).1⟩
    rw [if_pos hex]
    simp [FS.children, hd]
  · refine ⟨[], ?_, fun n hn => absurd (isDirectory_child _ _ _ hn).2 hd⟩
    have hd1 : w1.fs.isDirectory cachePath.parent = false := by simpa using hd
    split <;> simp [FS.children, hd1, removeVersions]

theorem exists_append_parsed (fs : FS) (P : FilePath) (name : String) (parsed : List Entry)
    (hname : name ≠ kCacheVersion) :
    FS.exists (fs ++ parsed.map
        (fun e => { e with path := ⟨(P.childPath kCacheVersion).comps ++ e.path.comps⟩ }))
      (P.childPath name) = fs.exists (P.childPath name) := by
  rw [exists_of_subtree, subtree_append_parsed fs P name parsed hname, ← exists_of_subtree]

/-- C6: when `onDocAdded` runs for a saved .Rmd document (whether or not the
parent of its cache folder exists; nothing lies under a parent that does not),
every directory directly under that parent whose name is not the version tag
has `remove` issued on it and no longer exists once that removal succeeds; the
folder named with the version tag, if it existed, keeps exactly its nodes and
has no `remove` issued on it; and so does every entry directly under the parent
that exists and is not a directory. -/
theorem onDocAdded_cleans_foreign_versions (h : Host) (id : String) (w : World)
    (cachePath : FilePath)
    (hget : (h.getPath id).1.isError = false) (hne : (h.getPath id).2 ≠ "")
    (hext : (h.resolveAliasedPath (h.getPath id).2).extensionLowerCase = ".rmd")
    (hcp : (chunkCacheFolderDefault h (h.getPath id).2 id w).1 = some cachePath) :
    cachePath = cachePath.parent.childPath kCacheVersion ∧
    ∃ issued, ((onDocAdded h id).exec w).calls = w.calls ++ issued ∧
      (∀ name, name ≠ kCacheVersion →
        w.fs.isDirectory (cachePath.parent.childPath name) = true →
        FsCall.remove (cachePath.parent.childPath name) ∈ issued ∧
        ((h.removeError (cachePath.parent.childPath name)).isError = false →
          ((onDocAdded h id).exec w).fs.exists (cachePath.parent.childPath name) = false)) ∧
      (w.fs.exists cachePath = true →
        ((onDocAdded h id).exec w).fs.subtree cachePath = w.fs.subtree cachePath ∧
        FsCall.remove cachePath ∉ issued) ∧
      (∀ name, w.fs.exists (cachePath.parent.childPath name) = true →
        w.fs.isDirectory (cachePath.parent.childPath name) = false →
        ((onDocAdded h id).exec w).fs.subtree (cachePath.parent.childPath name)
          = w.fs.subtree (cachePath.parent.childPath name) ∧
        FsCall.remove (cachePath.parent.childPath name) ∉ issued) := by
  rw [chunkCacheFolderDefault_apply] at hcp
  simp only [Option.some.injEq] at hcp
  have hself : cachePath = cachePath.parent.childPath kCacheVersion := by
    rw [← hcp, cacheFolderOf_parent]
  refine ⟨hself, ?_⟩
  obtain ⟨ns, hfold, hns⟩ := cleanIncompatibleVersions_as_fold h cachePath
    (cacheFolderWorld h (h.getPath id).2 h.notebookCtxId w)
  obtain ⟨hfs, hcalls⟩ := onDocAdded_exec h id w hget hne hext cachePath _ _ hcp.symm rfl rfl
  rw [hfold] at hfs hcalls
  simp only [cacheFolderWorld_fs] at hns
  clear hfold hcp
  generalize cachePath.parent = P at *
  subst hself
  generalize (h.resolveAliasedPath (h.getPath id).2).parent.complete
    ((h.resolveAliasedPath (h.getPath id).2).stem ++ ".Rnb") = nbPath at *
  generalize hw1 : cacheFolderWorld h (h.getPath id).2 h.notebookCtxId w = w1 at *
  have hw1fs : w1.fs = w.fs := by rw [← hw1]; exact cacheFolderWorld_fs _ _ _ _
  have hw1calls : w1.calls = w.calls := by rw [← hw1]; exact cacheFolderWorld_calls _ _ _ _
  obtain ⟨extra, hextra, _⟩ := removeVersions_mono h (ns.map P.childPath) w1
  rw [hw1calls] at hextra
  -- facts about an entry that the loop keeps
  have hkeep : ∀ m, (m = kCacheVersion ∨ w.fs.isDirectory (P.childPath m) = false) →
      w.fs.exists (P.childPath m) = true →
      ((onDocAdded h id).exec w).fs.subtree (P.childPath m) = w.fs.subtree (P.childPath m) ∧
      FsCall.remove (P.childPath m) ∉ extra := by
    intro m hm hex
    obtain ⟨haround, e1, he1, hnot⟩ := removeVersions_keep h P m ns w1 (by rw [hw1fs]; exact hm)
    rw [hw1fs] at haround
    rw [hw1calls] at he1
    have he : e1 = extra := List.append_cancel_left (he1.symm.trans hextra)
    subst he
    have hsub : (removeVersions h (ns.map P.childPath) w1).fs.subtree (P.childPath m)
        = w.fs.subtree (P.childPath m) := by
      rw [subtree_of_around, haround, ← subtree_of_around]
    refine ⟨?_, hnot⟩
    by_cases hm1 : m = kCacheVersion
    · subst hm1
      have hex2 : (removeVersions h (ns.map P.childPath) w1).fs.exists
          (P.childPath kCacheVersion) = true := by
        rw [exists_of_subtree, hsub, ← exists_of_subtree]; exact hex
      have hno : ¬ ((removeVersions h (ns.map P.childPath) w1).fs.exists
            (P.childPath kCacheVersion) = false ∧
          (removeVersions h (ns.map P.childPath) w1).fs.exists nbPath = true) := by
        rw [hex2]; exact fun hx => Bool.noConfusion hx.1
      rw [if_neg hno] at hfs
      rw [hfs, hsub]
    · rw [hfs]
      split
      · rw [subtree_append_parsed _ _ _ _ hm1, hsub]
      · exact hsub
  -- the calls issued in all
  have hissued : ∃ tail, ((onDocAdded h id).exec w).calls = w.calls ++ (extra ++ tail) ∧
      ∀ q, FsCall.remove q ∉ tail := by
    rw [hcalls]
    split
    · exact ⟨[FsCall.parseRnb nbPath (P.childPath kCacheVersion)],
        by rw [hextra, List.append_assoc], by simp⟩
    · exact ⟨[], by rw [hextra, List.append_nil], by simp⟩
  obtain ⟨tail, htail, hnotail⟩ := hissued
  refine ⟨extra ++ tail, htail, fun name hname hdir => ?_, fun hex => ?_, fun name hex hnd => ?_⟩
  · obtain ⟨e1, he1, hmem, hgone⟩ := removeVersions_removed h P name ns w1 (hns name hdir) hname
      (by rw [hw1fs]; exact hdir)
    rw [hw1calls] at he1
    have he : e1 = extra := List.append_cancel_left (he1.symm.trans hextra)
    subst he
    refine ⟨List.mem_append_left _ hmem, fun hok => ?_⟩
    rw [hfs]
    split
    · rw [exists_append_parsed _ _ _ _ hname]
      exact hgone hok
    · exact hgone hok
  · obtain ⟨h1, h2⟩ := hkeep kCacheVersion (Or.inl rfl) hex
    refine ⟨h1, ?_⟩
    simp only [List.mem_append, not_or]
    exact ⟨h2, hnotail _⟩
  · obtain ⟨h1, h2⟩ := hkeep name (Or.inr hnd) hex
    refine ⟨h1, ?_⟩
    simp only [List.mem_append, not_or]
    exact ⟨h2, hnotail _⟩

/-- C6, at a concrete input: adding "a.Rmd" while its cache holds the folders
"1" and "0" and the file "notes.txt"; the only call issued is the removal of
"0". -/
theorem onDocAdded_cleans_foreign_versions_witness :
    (demoSavedDir = demoSavedDir.parent.childPath kCacheVersion ∧
     ∃ issued, ((onDocAdded demoHost "d").exec demoVersionsWorld).calls
        = demoVersionsWorld.calls ++ issued ∧
      (∀ name, name ≠ kCacheVersion →
        demoVersionsWorld.fs.isDirectory (demoSavedDir.parent.childPath name) = true →
        FsCall.remove (demoSavedDir.parent.childPath name) ∈ issued ∧
        ((demoHost.removeError (demoSavedDir.parent.childPath name)).isError = false →
          ((onDocAdded demoHost "d").exec demoVersionsWorld).fs.exists
            (demoSavedDir.parent.childPath name) = false)) ∧
      (demoVersionsWorld.fs.exists demoSavedDir = true →
        ((onDocAdded demoHost "d").exec demoVersionsWorld).fs.subtree demoSavedDir
          = demoVersionsWorld.fs.subtree demoSavedDir ∧
        FsCall.remove demoSavedDir ∉ issued) ∧
      (∀ name, demoVersionsWorld.fs.exists (demoSavedDir.parent.childPath name) = true →
        demoVersionsWorld.fs.isDirectory (demoSavedDir.parent.childPath name) = false →
        ((onDocAdded demoHost "d").exec demoVersionsWorld).fs.subtree
            (demoSavedDir.parent.childPath name)
          = demoVersionsWorld.fs.subtree (demoSavedDir.parent.childPath name) ∧
        FsCall.remove (demoSavedDir.parent.childPath name) ∉ issued)) ∧
    demoVersionsWorld.fs.isDirectory (demoSavedDir.parent.childPath "0") = true ∧
    demoVersionsWorld.fs.isDirectory (demoSavedDir.parent.childPath "notes.txt") = false ∧
    ((onDocAdded demoHost "d").exec demoVersionsWorld).calls
      = [FsCall.remove (demoSavedDir.parent.childPath "0")] :=
  ⟨onDocAdded_cleans_foreign_versions demoHost "d" demoVersionsWorld demoSavedDir
      (by decide) (by decide) (by decide) (by decide),
   by decide, by decide, by decide⟩

end NotebookCache
